import Mathlib

/-!
# Verification of the flat BVH module (src/flat_bvh.rs)

Shallow embedding of the flattening transform (`BVHNode::flatten_custom`,
`BVH::flatten_custom`, `BVH::flatten`, `BVHNode::count_nodes`) and of the
iterative stackless traversal (`FlatBVH::traverse`).

Modelling decisions:
* The source tree is stored in Rust as an arena (`nodes: &[BVHNode]`) where an
  internal node holds the arena indices of its children.  The recursion in
  `flatten_custom` and `count_nodes` follows these child links, so a
  well-formed (acyclic, fully reachable) arena unfolds into the inductive type
  `BVHNode` below: the dereference `nodes[child_l_index]` of the source
  becomes the left subtree held directly by the constructor.  Malformed arenas
  (cycles, dangling indices) are an unchecked precondition of the Rust code.
  The arena length `self.nodes.len()` passed as the root exit index equals the
  total node count of the unfolded tree.
* `AABB`, `Ray` and shapes are external collaborators; only their interface is
  used: a `join` operation and an `empty` AABB (record `AABBOps`), a ray-vs-box
  predicate `intersects : A → Bool`, and a bounding-box lookup
  `aabbOf : S → A` for shapes.
* `u32` casts (`as u32`) are modelled by `toU32 = · % 2^32`; the sentinel
  `u32::max_value()` is `SENTINEL = 2^32 - 1`.  `usize` values are `Nat`.
* The `while` loop of `traverse` is modelled as a step function on a loop
  state, iterated `arr.length + 1` times.  The jump target taken from
  position `i` depends only on `i` (the array and the ray are fixed), so if
  the Rust loop runs for more than `arr.length + 1` iterations some position
  repeats and the loop diverges; hence a `.running` result after
  `arr.length + 1` steps models exactly the diverging executions, `.done`
  models normal return of the hit vector, and `.fault` models the panic of
  the bounds-checked access `shapes[node.shape_index as usize]`.
-/

/-- The reserved sentinel `u32::max_value()` marking a leaf's entry index. -/
def SENTINEL : Nat := 2 ^ 32 - 1

/-- Models the Rust cast `as u32` of a `usize` value. -/
def toU32 (n : Nat) : Nat := n % 2 ^ 32

/-- Interface of the external AABB collaborator: the `join` operation used for
the root's enclosing region, and `AABB::empty()` emitted for leaves. -/
structure AABBOps (A : Type) where
  join : A → A → A
  empty : A

/-- A source tree node (`bvh::BVHNode`), unfolded from the arena: an internal
node holds the bounding regions of its two children (`child_l_aabb`,
`child_r_aabb`) and the subtrees reached through `child_l_index` /
`child_r_index`; a leaf holds its shape index. -/
inductive BVHNode (A : Type) where
  | node (child_l_aabb : A) (child_l : BVHNode A) (child_r_aabb : A) (child_r : BVHNode A)
  | leaf (shape_index : Nat)
deriving DecidableEq

/-- A node of the flat BVH (`FlatNode` in the source): AABB, entry index,
exit index and shape index.  Indices are `u32` in Rust; they are `Nat` here,
with `toU32` applied wherever the source casts. -/
structure FlatNode (A : Type) where
  aabb : A
  entry_index : Nat
  exit_index : Nat
  shape_index : Nat
deriving DecidableEq

namespace BVHNode

variable {A C : Type}

/-- Embeds `BVHNode::count_nodes`: number of nodes in the subtree. -/
def count_nodes : BVHNode A → Nat
  | .node _ l _ r => 1 + l.count_nodes + r.count_nodes
  | .leaf _ => 1

/-- Embeds `BVHNode::flatten_custom`: emits this subtree's flat nodes in
order through the `constructor` callback (here modelled as returning the list
of emitted records).  Mirrors the source: an internal node first emits itself
with entry `1 + flattened_node_index` and the caller-supplied exit, then the
left subtree (whose exit is the right child's position
`1 + flattened_node_index + left_subtree_num_nodes`), then the right subtree
(with the caller's exit forwarded). -/
def flatten_custom (ops : AABBOps A) :
    BVHNode A → A → Nat → Nat → (A → Nat → Nat → Nat → C) → List C
  | .node child_l_aabb child_l child_r_aabb child_r, this_aabb,
      flattened_node_index, exit_index, constructor =>
    let left_subtree_num_nodes := child_l.count_nodes
    let l_index := 1 + flattened_node_index
    let r_index := 1 + flattened_node_index + left_subtree_num_nodes
    constructor this_aabb (toU32 l_index) (toU32 exit_index) SENTINEL
      :: (child_l.flatten_custom ops child_l_aabb l_index r_index constructor
          ++ child_r.flatten_custom ops child_r_aabb r_index exit_index constructor)
  | .leaf shape_index, _, _, exit_index, constructor =>
    [constructor ops.empty SENTINEL (toU32 exit_index) (toU32 shape_index)]

/-- The source nodes in the order `flatten_custom` emits them (the node
itself, then the left subtree, then the right subtree): slot `j` of the flat
segment is emitted from element `j` of this list. -/
def preorder : BVHNode A → List (BVHNode A)
  | .node la l ra r => .node la l ra r :: (l.preorder ++ r.preorder)
  | .leaf si => [.leaf si]

/-- Discriminates the leaf variant. -/
def isLeaf : BVHNode A → Bool
  | .leaf _ => true
  | .node _ _ _ _ => false

/-- The shape index value `flatten_custom` emits for a slot: the leaf's
(cast) shape index, or `u32::max_value()` for an internal node. -/
def emittedShapeIndex : BVHNode A → Nat
  | .leaf si => toU32 si
  | .node _ _ _ _ => SENTINEL

/-- Every leaf's shape index is a valid position into a shape sequence of
length `numShapes`. -/
def shapesValid (numShapes : Nat) : BVHNode A → Bool
  | .leaf si => decide (si < numShapes)
  | .node _ l _ r => l.shapesValid numShapes && r.shapesValid numShapes

end BVHNode

namespace BVH

variable {A C : Type}

/-- The enclosing root region computed by `BVH::flatten_custom`: the join of
the two children's regions for an internal root, `AABB::empty()` for a leaf
root. -/
def rootAabb (ops : AABBOps A) : BVHNode A → A
  | .node child_l_aabb _ child_r_aabb _ => ops.join child_l_aabb child_r_aabb
  | .leaf _ => ops.empty

/-- Embeds `BVH::flatten_custom`: flattens the whole tree starting at
position 0, with the arena length (= total node count of a well-formed
arena) as the root's exit index. -/
def flatten_custom (ops : AABBOps A) (t : BVHNode A)
    (constructor : A → Nat → Nat → Nat → C) : List C :=
  t.flatten_custom ops (rootAabb ops t) 0 t.count_nodes constructor

/-- Embeds `BVH::flatten`: the default flattening, materialising `FlatNode`
records in emission order. -/
def flatten (ops : AABBOps A) (t : BVHNode A) : List (FlatNode A) :=
  flatten_custom ops t FlatNode.mk

end BVH

/-- State of the `while` loop of `FlatBVH::traverse`: `running index hits`
is an in-progress iteration, `done hits` is normal return of the collected
hit shapes, `fault` is the panic of an out-of-bounds `shapes[...]` access. -/
inductive LoopState (S : Type) where
  | running (index : Nat) (hits : List S)
  | done (hits : List S)
  | fault
deriving DecidableEq

namespace LoopState

/-- Discriminates the in-progress state: true while the Rust loop would keep
iterating. -/
def isRunning {S : Type} : LoopState S → Bool
  | .running _ _ => true
  | .done _ => false
  | .fault => false

end LoopState

namespace FlatBVH

variable {A S : Type}

/-- One iteration of the `while index < max_length` loop of
`FlatBVH::traverse`: out-of-range cursor ends the walk; at a leaf
(`entry_index == u32::max_value()`) the shape is fetched (a missing entry is
the Rust bounds panic), tested against the ray and possibly appended, and the
cursor moves to `exit_index`; at an internal node the cursor moves to
`entry_index` on an AABB hit and to `exit_index` on a miss.  Terminal states
are fixed points. -/
def traverseStep (arr : List (FlatNode A)) (intersects : A → Bool)
    (aabbOf : S → A) (shapes : List S) : LoopState S → LoopState S
  | .running index hits =>
    match arr[index]? with
    | some node =>
      if node.entry_index = SENTINEL then
        match shapes[node.shape_index]? with
        | some shape =>
          .running node.exit_index
            (if intersects (aabbOf shape) then hits ++ [shape] else hits)
        | none => .fault
      else if intersects node.aabb then .running node.entry_index hits
      else .running node.exit_index hits
    | none => .done hits
  | s => s

/-- Embeds `FlatBVH::traverse`: run the loop from index 0 with no hits.
`arr.length + 1` iterations suffice to reach a terminal state whenever the
Rust loop terminates (forward motion visits each position at most once); a
`.running` result models a diverging Rust execution. -/
def traverse (arr : List (FlatNode A)) (intersects : A → Bool)
    (aabbOf : S → A) (shapes : List S) : LoopState S :=
  (traverseStep arr intersects aabbOf shapes)^[arr.length + 1] (.running 0 [])

/-- The §3 index invariants assumed by claim C7: every node's entry and exit
index strictly exceed its own position, and the exit index is bounded by the
array length. -/
def Inv (arr : List (FlatNode A)) : Prop :=
  ∀ j (h : j < arr.length),
    j < arr[j].entry_index ∧
    j < arr[j].exit_index ∧
    arr[j].exit_index ≤ arr.length

instance (arr : List (FlatNode A)) : Decidable (Inv arr) := by
  unfold Inv; infer_instance

end FlatBVH

/-- Modelled from the spec (§4.2, correctness invariant): the recursive
descent that prunes a subtree as soon as its bounding region misses the ray,
collecting in left-before-right preorder every reached shape whose own
bounding box the ray intersects.  `region` is the node's enclosing region as
recorded by its parent (for the root, the one `BVH::flatten_custom`
computes). -/
def specRecTraverse {A S : Type} (intersects : A → Bool) (aabbOf : S → A)
    (shapes : List S) : BVHNode A → A → List S
  | .leaf si, _ =>
    match shapes[si]? with
    | some s => if intersects (aabbOf s) then [s] else []
    | none => []
  | .node la l ra r, region =>
    if intersects region then
      specRecTraverse intersects aabbOf shapes l la
        ++ specRecTraverse intersects aabbOf shapes r ra
    else []

/-! ## Basic lemmas about the flattener -/

namespace BVHNode

variable {A C : Type}

lemma flatten_custom_node (ops : AABBOps A) (la : A) (l : BVHNode A) (ra : A)
    (r : BVHNode A) (a : A) (p e : Nat) (c : A → Nat → Nat → Nat → C) :
    (BVHNode.node la l ra r).flatten_custom ops a p e c
      = c a (toU32 (1 + p)) (toU32 e) SENTINEL
        :: (l.flatten_custom ops la (1 + p) (1 + p + l.count_nodes) c
            ++ r.flatten_custom ops ra (1 + p + l.count_nodes) e c) := rfl

lemma flatten_custom_leaf (ops : AABBOps A) (si : Nat) (a : A) (p e : Nat)
    (c : A → Nat → Nat → Nat → C) :
    (BVHNode.leaf si).flatten_custom ops a p e c
      = [c ops.empty SENTINEL (toU32 e) (toU32 si)] := rfl

lemma one_le_count_nodes : ∀ t : BVHNode A, 1 ≤ t.count_nodes := by
  intro t
  cases t with
  | node la l ra r =>
    simp [count_nodes]
    omega
  | leaf si => simp [count_nodes]

lemma flatten_custom_length (ops : AABBOps A) :
    ∀ (t : BVHNode A) (a : A) (p e : Nat) (c : A → Nat → Nat → Nat → C),
      (t.flatten_custom ops a p e c).length = t.count_nodes := by
  intro t
  induction t with
  | node la l ra r ihl ihr =>
    intro a p e c
    simp [flatten_custom_node, ihl, ihr, count_nodes]
    omega
  | leaf si =>
    intro a p e c
    simp [flatten_custom_leaf, count_nodes]

lemma preorder_length : ∀ t : BVHNode A, t.preorder.length = t.count_nodes := by
  intro t
  induction t with
  | node la l ra r ihl ihr =>
    simp [preorder, ihl, ihr, count_nodes]
    omega
  | leaf si => simp [preorder, count_nodes]

end BVHNode

lemma toU32_of_lt {n : Nat} (h : n < 2 ^ 32) : toU32 n = n := Nat.mod_eq_of_lt h

lemma toU32_ne_SENTINEL {n : Nat} (h : n < 2 ^ 32 - 1) : toU32 n ≠ SENTINEL := by
  rw [toU32_of_lt (by omega), SENTINEL]
  omega

/-! ## Slices of the flat array

A segment emitted by a recursive call of `flatten_custom` occupies a
contiguous block of the final array; `sliceEq arr p seg` says that block
starts at position `p`. -/

def sliceEq {A : Type} (arr : List (FlatNode A)) (p : Nat)
    (seg : List (FlatNode A)) : Prop :=
  ∀ j, j < seg.length → arr[p + j]? = seg[j]?

namespace sliceEq

variable {A : Type} {arr : List (FlatNode A)}

lemma self (l : List (FlatNode A)) : sliceEq l 0 l := by
  intro j hj
  simp

lemma head {p : Nat} {x : FlatNode A} {s : List (FlatNode A)}
    (h : sliceEq arr p (x :: s)) : arr[p]? = some x := by
  have h0 := h 0 (by simp)
  simpa using h0

lemma tail {p : Nat} {x : FlatNode A} {s : List (FlatNode A)}
    (h : sliceEq arr p (x :: s)) : sliceEq arr (p + 1) s := by
  intro j hj
  have hs := h (j + 1) (by simpa using Nat.succ_lt_succ hj)
  rw [List.getElem?_cons_succ] at hs
  rw [show p + 1 + j = p + (j + 1) by omega]
  exact hs

lemma append_left {p : Nat} {s u : List (FlatNode A)}
    (h : sliceEq arr p (s ++ u)) : sliceEq arr p s := by
  intro j hj
  have hs := h j (by simp; omega)
  rw [List.getElem?_append, if_pos hj] at hs
  exact hs

lemma shift {p q : Nat} {s : List (FlatNode A)} (h : sliceEq arr p s)
    (hpq : p = q) : sliceEq arr q s := hpq ▸ h

lemma append_right {p : Nat} {s u : List (FlatNode A)}
    (h : sliceEq arr p (s ++ u)) : sliceEq arr (p + s.length) u := by
  intro j hj
  have hs := h (s.length + j) (by simp; omega)
  rw [List.getElem?_append, if_neg (by omega)] at hs
  rw [show s.length + j - s.length = j by omega] at hs
  rw [show p + s.length + j = p + (s.length + j) by omega]
  exact hs

end sliceEq

/-! ## The shape of every slot of a flattened segment

Slot `j` of the segment a recursive `flatten_custom` call emits for subtree
`t` at base position `p` (with exit target `p + t.count_nodes`, the form in
which every recursive call receives it) is emitted from source node
`t.preorder[j]`; its entry index is the sentinel for a leaf and the next slot
otherwise, and its exit index skips that source node's whole subtree. -/

namespace BVHNode

variable {A : Type}

lemma preorder_node (la : A) (l : BVHNode A) (ra : A) (r : BVHNode A) :
    (BVHNode.node la l ra r).preorder
      = BVHNode.node la l ra r :: (l.preorder ++ r.preorder) := rfl

lemma flatten_get (ops : AABBOps A) :
    ∀ (t : BVHNode A) (a : A) (p j : Nat), j < t.count_nodes →
      ∃ (fn : FlatNode A) (u : BVHNode A),
        (t.flatten_custom ops a p (p + t.count_nodes) FlatNode.mk)[j]? = some fn ∧
        t.preorder[j]? = some u ∧
        fn.entry_index = (if u.isLeaf then SENTINEL else toU32 (1 + (p + j))) ∧
        fn.exit_index = toU32 (p + j + u.count_nodes) ∧
        fn.shape_index = u.emittedShapeIndex ∧
        1 ≤ u.count_nodes ∧ j + u.count_nodes ≤ t.count_nodes := by
  intro t
  induction t with
  | leaf si =>
    intro a p j hj
    have hj0 : j = 0 := by
      simp [count_nodes] at hj
      omega
    subst hj0
    refine ⟨FlatNode.mk ops.empty SENTINEL
        (toU32 (p + (BVHNode.leaf si : BVHNode A).count_nodes)) (toU32 si),
      BVHNode.leaf si, ?_, ?_, ?_, ?_, ?_, ?_, ?_⟩
    · simp [flatten_custom_leaf]
    · simp [preorder]
    · simp [isLeaf]
    · simp [count_nodes]
    · simp [emittedShapeIndex]
    · simp [count_nodes]
    · simp [count_nodes]
  | node la l ra r ihl ihr =>
    intro a p j hj
    rw [flatten_custom_node]
    have hlenL : (l.flatten_custom ops la (1 + p) (1 + p + l.count_nodes)
        (FlatNode.mk : A → Nat → Nat → Nat → FlatNode A)).length = l.count_nodes :=
      flatten_custom_length ops l la (1 + p) (1 + p + l.count_nodes) FlatNode.mk
    cases j with
    | zero =>
      refine ⟨FlatNode.mk a (toU32 (1 + p))
          (toU32 (p + (BVHNode.node la l ra r).count_nodes)) SENTINEL,
        BVHNode.node la l ra r, ?_, ?_, ?_, ?_, ?_, ?_, ?_⟩
      · simp
      · simp [preorder_node]
      · simp [isLeaf]
      · simp
      · simp [emittedShapeIndex]
      · exact one_le_count_nodes _
      · simp
    | succ j' =>
      by_cases hlt : j' < l.count_nodes
      · obtain ⟨fn, u, hseg, hpre, hentry, hexit, hshape, hcu, hbound⟩ :=
          ihl la (1 + p) j' hlt
        refine ⟨fn, u, ?_, ?_, ?_, ?_, hshape, hcu, ?_⟩
        · rw [List.getElem?_cons_succ, List.getElem?_append,
            if_pos (by rw [hlenL]; exact hlt)]
          exact hseg
        · rw [preorder_node, List.getElem?_cons_succ, List.getElem?_append,
            if_pos (by rw [preorder_length]; exact hlt)]
          exact hpre
        · rw [hentry, show 1 + (1 + p + j') = 1 + (p + (j' + 1)) by omega]
        · rw [hexit, show 1 + p + j' + u.count_nodes
            = p + (j' + 1) + u.count_nodes by omega]
        · simp [count_nodes]
          omega
      · have hge : l.count_nodes ≤ j' := Nat.le_of_not_lt hlt
        have hj'' : j' - l.count_nodes < r.count_nodes := by
          simp [count_nodes] at hj
          omega
        have hE : p + (BVHNode.node la l ra r).count_nodes
            = 1 + p + l.count_nodes + r.count_nodes := by
          simp [count_nodes]
          omega
        rw [hE]
        obtain ⟨fn, u, hseg, hpre, hentry, hexit, hshape, hcu, hbound⟩ :=
          ihr ra (1 + p + l.count_nodes) (j' - l.count_nodes) hj''
        refine ⟨fn, u, ?_, ?_, ?_, ?_, hshape, hcu, ?_⟩
        · rw [List.getElem?_cons_succ, List.getElem?_append,
            if_neg (by rw [hlenL]; omega), hlenL]
          exact hseg
        · rw [preorder_node, List.getElem?_cons_succ, List.getElem?_append,
            if_neg (by rw [preorder_length]; omega), preorder_length]
          exact hpre
        · rw [hentry, show 1 + (1 + p + l.count_nodes + (j' - l.count_nodes))
            = 1 + (p + (j' + 1)) by omega]
        · rw [hexit, show 1 + p + l.count_nodes + (j' - l.count_nodes) + u.count_nodes
            = p + (j' + 1) + u.count_nodes by omega]
        · simp [count_nodes]
          omega

end BVHNode

/-! ## Lemmas about the traversal loop -/

namespace FlatBVH

variable {A S : Type} (arr : List (FlatNode A)) (intersects : A → Bool)
  (aabbOf : S → A) (shapes : List S)

lemma traverseStep_done (hits : List S) :
    traverseStep arr intersects aabbOf shapes (.done hits) = .done hits := rfl

lemma traverseStep_fault :
    traverseStep arr intersects aabbOf shapes .fault = .fault := rfl

lemma iterate_done (n : Nat) (hits : List S) :
    (traverseStep arr intersects aabbOf shapes)^[n] (.done hits) = .done hits := by
  induction n with
  | zero => rfl
  | succ n ih =>
    rw [Function.iterate_succ_apply, traverseStep_done]
    exact ih

lemma iterate_fault (n : Nat) :
    (traverseStep arr intersects aabbOf shapes)^[n] .fault = .fault := by
  induction n with
  | zero => rfl
  | succ n ih =>
    rw [Function.iterate_succ_apply, traverseStep_fault]
    exact ih

lemma inv_elem {arr : List (FlatNode A)} (hInv : Inv arr) {i : Nat}
    {node : FlatNode A} (h : arr[i]? = some node) :
    i < node.entry_index ∧ i < node.exit_index ∧ node.exit_index ≤ arr.length := by
  have hi : i < arr.length := by
    by_contra hc
    rw [List.getElem?_eq_none (by omega)] at h
    exact absurd h (by simp)
  have hv := hInv i hi
  have hg : arr[i]? = some arr[i] := List.getElem?_eq_getElem hi
  rw [hg] at h
  obtain rfl : arr[i] = node := by
    injection h
  exact hv

/-- Walking the slice that `flatten_custom` emitted for subtree `t` at base
position `p`: from cursor `p` the loop reaches cursor `p + t.count_nodes`
(the slot after the whole subtree) in at most `t.count_nodes` iterations,
having appended exactly the shapes the pruning recursive descent collects for
`t`. -/
lemma traverse_seg (ops : AABBOps A) (hlen : arr.length < 2 ^ 32)
    (hslen : shapes.length ≤ 2 ^ 32) :
    ∀ (t : BVHNode A) (a : A) (p : Nat) (hits : List S),
      sliceEq arr p (t.flatten_custom ops a p (p + t.count_nodes) FlatNode.mk) →
      p + t.count_nodes ≤ arr.length →
      t.shapesValid shapes.length = true →
      ∃ k, 1 ≤ k ∧ k ≤ t.count_nodes ∧
        (traverseStep arr intersects aabbOf shapes)^[k] (.running p hits)
          = .running (p + t.count_nodes)
              (hits ++ specRecTraverse intersects aabbOf shapes t a) := by
  intro t
  induction t with
  | leaf si =>
    intro a p hits hslice hbound hvalid
    rw [BVHNode.flatten_custom_leaf] at hslice
    have hhead := hslice.head
    have hsi : si < shapes.length := by
      simpa [BVHNode.shapesValid] using hvalid
    have hsi32 : si < 2 ^ 32 := lt_of_lt_of_le hsi hslen
    have hp1 : p + (BVHNode.leaf si : BVHNode A).count_nodes < 2 ^ 32 := by
      omega
    obtain ⟨s, hs⟩ : ∃ s, shapes[si]? = some s :=
      ⟨shapes.get ⟨si, hsi⟩, by rw [List.getElem?_eq_getElem hsi, List.get_eq_getElem]⟩
    refine ⟨1, le_refl 1, BVHNode.one_le_count_nodes _, ?_⟩
    rw [Function.iterate_one]
    have hstep : traverseStep arr intersects aabbOf shapes (.running p hits)
        = .running (p + (BVHNode.leaf si : BVHNode A).count_nodes)
            (if intersects (aabbOf s) then hits ++ [s] else hits) := by
      simp [traverseStep, hhead, toU32_of_lt hsi32, toU32_of_lt hp1, hs]
    rw [hstep]
    cases hI : intersects (aabbOf s) <;> simp [specRecTraverse, hs, hI]
  | node la l ra r ihl ihr =>
    intro a p hits hslice hbound hvalid
    have hcl := BVHNode.one_le_count_nodes l
    have hcr := BVHNode.one_le_count_nodes r
    have hcount : (BVHNode.node la l ra r).count_nodes
        = 1 + l.count_nodes + r.count_nodes := rfl
    rw [BVHNode.flatten_custom_node] at hslice
    have hhead := hslice.head
    have htail := hslice.tail
    have hsliceL := htail.append_left
    have hsliceR := htail.append_right
    have hboundE : p + (1 + l.count_nodes + r.count_nodes) ≤ arr.length := by
      rw [hcount] at hbound
      exact hbound
    obtain ⟨hvl, hvr⟩ : l.shapesValid shapes.length = true
        ∧ r.shapesValid shapes.length = true := by
      simpa [BVHNode.shapesValid, Bool.and_eq_true] using hvalid
    have hlenL : (l.flatten_custom ops la (1 + p) (1 + p + l.count_nodes)
        (FlatNode.mk : A → Nat → Nat → Nat → FlatNode A)).length = l.count_nodes :=
      BVHNode.flatten_custom_length ops l la (1 + p) (1 + p + l.count_nodes) FlatNode.mk
    have hsliceL' : sliceEq arr (1 + p)
        (l.flatten_custom ops la (1 + p) (1 + p + l.count_nodes) FlatNode.mk) :=
      hsliceL.shift (by omega)
    have he : p + (BVHNode.node la l ra r).count_nodes
        = 1 + p + l.count_nodes + r.count_nodes := by
      rw [hcount]
      omega
    have hsliceR' : sliceEq arr (1 + p + l.count_nodes)
        (r.flatten_custom ops ra (1 + p + l.count_nodes)
          (1 + p + l.count_nodes + r.count_nodes) FlatNode.mk) := by
      rw [he] at hsliceR
      rw [hlenL] at hsliceR
      exact hsliceR.shift (by omega)
    obtain ⟨kl, hkl1, hklb, hstepl⟩ :=
      ihl la (1 + p) hits hsliceL' (by omega) hvl
    obtain ⟨kr, hkr1, hkrb, hstepr⟩ :=
      ihr ra (1 + p + l.count_nodes)
        (hits ++ specRecTraverse intersects aabbOf shapes l la) hsliceR' (by omega) hvr
    have h1p : 1 + p < 2 ^ 32 := by omega
    have hne : toU32 (1 + p) ≠ SENTINEL := toU32_ne_SENTINEL (by omega)
    have hne' : 1 + p ≠ SENTINEL := by
      rw [show SENTINEL = 2 ^ 32 - 1 from rfl]
      omega
    cases hI : intersects a with
    | true =>
      refine ⟨kr + (kl + 1), by omega, by omega, ?_⟩
      have hstep0 : traverseStep arr intersects aabbOf shapes (.running p hits)
          = .running (1 + p) hits := by
        simp [traverseStep, hhead, hne, hne', hI, toU32_of_lt h1p]
      rw [Function.iterate_add_apply, Function.iterate_add_apply,
        Function.iterate_one, hstep0, hstepl, hstepr]
      rw [he]
      simp [specRecTraverse, hI]
    | false =>
      refine ⟨1, le_refl 1, BVHNode.one_le_count_nodes _, ?_⟩
      have hpc : p + (BVHNode.node la l ra r).count_nodes < 2 ^ 32 := by
        omega
      rw [Function.iterate_one]
      simp [traverseStep, hhead, hne, hne', hI, toU32_of_lt h1p, toU32_of_lt hpc,
        specRecTraverse]

end FlatBVH

namespace FlatBVH

variable {A S : Type} (arr : List (FlatNode A)) (intersects : A → Bool)
  (aabbOf : S → A) (shapes : List S)

lemma flatten_length_eq (ops : AABBOps A) (t : BVHNode A) :
    (BVH.flatten ops t).length = t.count_nodes := by
  simp [BVH.flatten, BVH.flatten_custom, BVHNode.flatten_custom_length]

/-- The iterative traversal of a flattened tree computes exactly what the
pruning recursive descent computes. -/
lemma traverse_flatten (ops : AABBOps A) (t : BVHNode A)
    (hn : t.count_nodes < 2 ^ 32) (hv : t.shapesValid shapes.length = true)
    (hb : shapes.length ≤ 2 ^ 32) :
    traverse (BVH.flatten ops t) intersects aabbOf shapes
      = .done (specRecTraverse intersects aabbOf shapes t (BVH.rootAabb ops t)) := by
  have hlen : (BVH.flatten ops t).length = t.count_nodes := flatten_length_eq ops t
  have hlen32 : (BVH.flatten ops t).length < 2 ^ 32 := by
    rw [hlen]
    exact hn
  have hslice : sliceEq (BVH.flatten ops t) 0
      (t.flatten_custom ops (BVH.rootAabb ops t) 0 (0 + t.count_nodes)
        FlatNode.mk) := by
    rw [Nat.zero_add]
    exact sliceEq.self _
  obtain ⟨k, hk1, hkb, hrun⟩ :=
    traverse_seg (BVH.flatten ops t) intersects aabbOf shapes ops hlen32 hb
      t (BVH.rootAabb ops t) 0 [] hslice (by omega) hv
  have hm : (BVH.flatten ops t).length + 1 = ((t.count_nodes - k) + 1) + k := by
    rw [hlen]
    omega
  unfold traverse
  rw [hm, Function.iterate_add_apply, hrun, Function.iterate_succ_apply]
  have hstepend : traverseStep (BVH.flatten ops t) intersects aabbOf shapes
      (.running (0 + t.count_nodes)
        ([] ++ specRecTraverse intersects aabbOf shapes t (BVH.rootAabb ops t)))
      = .done ([] ++ specRecTraverse intersects aabbOf shapes t (BVH.rootAabb ops t)) := by
    have hnone : (BVH.flatten ops t)[t.count_nodes]? = none :=
      List.getElem?_eq_none (by omega)
    simp [traverseStep, hnone]
  rw [hstepend, iterate_done]
  simp

/-- If the walk ever sits at a leaf slot whose shape index is out of range of
the shape sequence, the whole call faults (models the Rust bounds panic). -/
lemma traverse_fault_of_invalid_leaf (k i : Nat) (hits : List S)
    (node : FlatNode A) (hk : k ≤ arr.length)
    (hrun : (traverseStep arr intersects aabbOf shapes)^[k] (.running 0 [])
      = .running i hits)
    (hnode : arr[i]? = some node) (hleaf : node.entry_index = SENTINEL)
    (hbad : shapes.length ≤ node.shape_index) :
    traverse arr intersects aabbOf shapes = .fault := by
  have hstep : traverseStep arr intersects aabbOf shapes (.running i hits)
      = .fault := by
    simp [traverseStep, hnode, hleaf, List.getElem?_eq_none hbad]
  have hm : arr.length + 1 = ((arr.length - k) + 1) + k := by omega
  unfold traverse
  rw [hm, Function.iterate_add_apply, hrun, Function.iterate_succ_apply, hstep,
    iterate_fault]

lemma not_running_of_inv {arr : List (FlatNode A)} (hInv : Inv arr) :
    ∀ (fuel i : Nat) (hits : List S), arr.length ≤ i + fuel →
      ((traverseStep arr intersects aabbOf shapes)^[fuel + 1]
        (.running i hits)).isRunning = false := by
  intro fuel
  induction fuel with
  | zero =>
    intro i hits hle
    simp only [Nat.zero_add, Function.iterate_one]
    have hnone : arr[i]? = none := List.getElem?_eq_none (by omega)
    simp [traverseStep, hnone, LoopState.isRunning]
  | succ fuel ih =>
    intro i hits hle
    rw [Function.iterate_succ_apply]
    cases hnode : arr[i]? with
    | none =>
      have hstep : traverseStep arr intersects aabbOf shapes (.running i hits)
          = .done hits := by
        simp [traverseStep, hnode]
      rw [hstep, iterate_done]
      simp [LoopState.isRunning]
    | some node =>
      obtain ⟨hen, hex, _⟩ := inv_elem hInv hnode
      by_cases hsent : node.entry_index = SENTINEL
      · cases hsh : shapes[node.shape_index]? with
        | none =>
          have hstep : traverseStep arr intersects aabbOf shapes (.running i hits)
              = .fault := by
            simp [traverseStep, hnode, hsent, hsh]
          rw [hstep, iterate_fault]
          simp [LoopState.isRunning]
        | some s =>
          have hstep : traverseStep arr intersects aabbOf shapes (.running i hits)
              = .running node.exit_index
                  (if intersects (aabbOf s) then hits ++ [s] else hits) := by
            simp [traverseStep, hnode, hsent, hsh]
          rw [hstep]
          exact ih node.exit_index _ (by omega)
      · by_cases hI : intersects node.aabb
        · have hstep : traverseStep arr intersects aabbOf shapes (.running i hits)
              = .running node.entry_index hits := by
            simp [traverseStep, hnode, hsent, hI]
          rw [hstep]
          exact ih node.entry_index hits (by omega)
        · have hstep : traverseStep arr intersects aabbOf shapes (.running i hits)
              = .running node.exit_index hits := by
            simp [traverseStep, hnode, hsent, hI]
          rw [hstep]
          exact ih node.exit_index hits (by omega)

lemma step_running_lt {arr : List (FlatNode A)} (hInv : Inv arr) {i i' : Nat}
    {hits hits' : List S}
    (h : traverseStep arr intersects aabbOf shapes (.running i hits)
      = .running i' hits') :
    i < i' := by
  cases hnode : arr[i]? with
  | none => simp [traverseStep, hnode] at h
  | some node =>
    obtain ⟨hen, hex, _⟩ := inv_elem hInv hnode
    by_cases hsent : node.entry_index = SENTINEL
    · cases hsh : shapes[node.shape_index]? with
      | none => simp [traverseStep, hnode, hsent, hsh] at h
      | some s =>
        simp [traverseStep, hnode, hsent, hsh] at h
        obtain ⟨h1, _⟩ := h
        omega
    · by_cases hI : intersects node.aabb
      · simp [traverseStep, hnode, hsent, hI] at h
        obtain ⟨h1, _⟩ := h
        omega
      · simp [traverseStep, hnode, hsent, hI] at h
        obtain ⟨h1, _⟩ := h
        omega

lemma iterate_running_lt {arr : List (FlatNode A)} (hInv : Inv arr) :
    ∀ (d i i' : Nat) (hits hits' : List S), 1 ≤ d →
      (traverseStep arr intersects aabbOf shapes)^[d] (.running i hits)
        = .running i' hits' →
      i < i' := by
  intro d
  induction d with
  | zero =>
    intro i i' hits hits' h1 _
    omega
  | succ d ih =>
    intro i i' hits hits' _ h
    rw [Function.iterate_succ_apply] at h
    cases hs : traverseStep arr intersects aabbOf shapes (.running i hits) with
    | running j hj =>
      rw [hs] at h
      have hij : i < j := step_running_lt intersects aabbOf shapes hInv hs
      rcases Nat.eq_zero_or_pos d with hd | hd
      · subst hd
        simp at h
        obtain ⟨h1, _⟩ := h
        omega
      · exact lt_trans hij (ih j i' hj hits' hd h)
    | done hd' =>
      rw [hs, iterate_done] at h
      simp at h
    | fault =>
      rw [hs, iterate_fault] at h
      simp at h

end FlatBVH

/-! ## Shared facts for the per-slot claims -/

lemma three_le_count_nodes {A : Type} {u : BVHNode A} (h : u.isLeaf = false) :
    3 ≤ u.count_nodes := by
  cases u with
  | node la l ra r =>
    have h1 := BVHNode.one_le_count_nodes l
    have h2 := BVHNode.one_le_count_nodes r
    simp [BVHNode.count_nodes]
    omega
  | leaf si => simp [BVHNode.isLeaf] at h

/-- Specialisation of the per-slot characterisation to the whole flattened
tree (base position 0): slot `j` of `BVH::flatten`'s output against source
node `j` of the preorder listing. -/
lemma flatten_elem_spec {A : Type} (ops : AABBOps A) (t : BVHNode A) {j : Nat}
    {fn : FlatNode A} {u : BVHNode A}
    (hfn : (BVH.flatten ops t)[j]? = some fn) (hu : t.preorder[j]? = some u) :
    j < t.count_nodes ∧
    fn.entry_index = (if u.isLeaf then SENTINEL else toU32 (1 + (0 + j))) ∧
    fn.exit_index = toU32 (0 + j + u.count_nodes) ∧
    fn.shape_index = u.emittedShapeIndex ∧
    1 ≤ u.count_nodes ∧ j + u.count_nodes ≤ t.count_nodes := by
  have hjlen : j < (BVH.flatten ops t).length := by
    by_contra hc
    rw [List.getElem?_eq_none (by omega)] at hfn
    exact absurd hfn (by simp)
  have hj : j < t.count_nodes := by
    rwa [FlatBVH.flatten_length_eq] at hjlen
  obtain ⟨fn', u', hfn', hu', hentry, hexit, hshape, hcu, hbound⟩ :=
    BVHNode.flatten_get ops t (BVH.rootAabb ops t) 0 j hj
  rw [Nat.zero_add] at hfn'
  have hfe : (BVH.flatten ops t)[j]? = some fn' := hfn'
  rw [hfn] at hfe
  obtain rfl : fn = fn' := by
    injection hfe
  rw [hu] at hu'
  obtain rfl : u = u' := by
    injection hu'
  exact ⟨hj, hentry, hexit, hshape, hcu, hbound⟩

/-! ## The claims -/

/-- Claim C2: for every source tree, the length of the flat array produced by
`BVH::flatten` equals the exact total node count (internal plus leaf nodes)
computed by `BVHNode::count_nodes`. -/
theorem C2_flatten_length_eq_total_node_count {A : Type} (ops : AABBOps A)
    (t : BVHNode A) :
    (BVH.flatten ops t).length = t.count_nodes :=
  FlatBVH.flatten_length_eq ops t

/-- Claim C3: in `BVH::flatten`'s output (for a tree whose node count fits in
`u32`), a slot's entry index equals the sentinel exactly when the slot was
emitted from a leaf of the source tree, and a slot emitted from an internal
source node has entry index equal to its own position plus one. -/
theorem C3_entry_index_sentinel_iff_leaf {A : Type} (ops : AABBOps A)
    (t : BVHNode A) (hn : t.count_nodes < 2 ^ 32) (j : Nat) (fn : FlatNode A)
    (u : BVHNode A) (hfn : (BVH.flatten ops t)[j]? = some fn)
    (hu : t.preorder[j]? = some u) :
    (fn.entry_index = SENTINEL ↔ u.isLeaf = true)
      ∧ (u.isLeaf = false → fn.entry_index = j + 1) := by
  obtain ⟨hj, hentry, hexit, hshape, hcu, hbound⟩ := flatten_elem_spec ops t hfn hu
  cases hul : u.isLeaf with
  | true => simp [hentry, hul]
  | false =>
    have h3 : 3 ≤ u.count_nodes := three_le_count_nodes hul
    have hne : toU32 (1 + j) ≠ SENTINEL := toU32_ne_SENTINEL (by omega)
    constructor
    · rw [hentry]
      simp [hul, hne]
    · intro _
      rw [hentry]
      simp only [hul, Bool.false_eq_true, if_false]
      rw [show 1 + (0 + j) = j + 1 by omega]
      exact toU32_of_lt (by omega)

/-- Witness for C3 at the three-node tree (root with two leaves): slot 0 is
emitted from the internal root, whose entry index is 1. -/
theorem C3_entry_index_sentinel_iff_leaf_witness :
    (BVHNode.node () (BVHNode.leaf 0) () (BVHNode.leaf 1)).count_nodes < 2 ^ 32
    ∧ (((FlatNode.mk () 1 3 SENTINEL).entry_index = SENTINEL
          ↔ (BVHNode.node () (BVHNode.leaf 0) () (BVHNode.leaf 1)).isLeaf = true)
        ∧ ((BVHNode.node () (BVHNode.leaf 0) () (BVHNode.leaf 1)).isLeaf = false
            → (FlatNode.mk () 1 3 SENTINEL).entry_index = 0 + 1)) :=
  ⟨by decide,
    C3_entry_index_sentinel_iff_leaf (⟨fun _ _ => (), ()⟩ : AABBOps Unit)
      (BVHNode.node () (BVHNode.leaf 0) () (BVHNode.leaf 1)) (by decide) 0
      (FlatNode.mk () 1 3 SENTINEL)
      (BVHNode.node () (BVHNode.leaf 0) () (BVHNode.leaf 1)) (by decide) (by decide)⟩

/-- Claim C10: in the default `BVH::flatten` output, every slot emitted from
an internal source node stores the sentinel (`u32::max_value()`) in its shape
index field. -/
theorem C10_internal_shape_index_sentinel {A : Type} (ops : AABBOps A)
    (t : BVHNode A) (j : Nat) (fn : FlatNode A) (u : BVHNode A)
    (hfn : (BVH.flatten ops t)[j]? = some fn) (hu : t.preorder[j]? = some u)
    (hint : u.isLeaf = false) :
    fn.shape_index = SENTINEL := by
  obtain ⟨hj, hentry, hexit, hshape, hcu, hbound⟩ := flatten_elem_spec ops t hfn hu
  cases u with
  | node la l ra r => simpa [BVHNode.emittedShapeIndex] using hshape
  | leaf si => simp [BVHNode.isLeaf] at hint

/-- Witness for C10 at the three-node tree: slot 0, emitted from the internal
root, has shape index `SENTINEL`. -/
theorem C10_internal_shape_index_sentinel_witness :
    (FlatNode.mk () 1 3 SENTINEL).shape_index = SENTINEL :=
  C10_internal_shape_index_sentinel (⟨fun _ _ => (), ()⟩ : AABBOps Unit)
    (BVHNode.node () (BVHNode.leaf 0) () (BVHNode.leaf 1)) 0
    (FlatNode.mk () 1 3 SENTINEL)
    (BVHNode.node () (BVHNode.leaf 0) () (BVHNode.leaf 1)) (by decide) (by decide)
    (by decide)

/-- Claim C9: `BVH::flatten_custom` computes the root's enclosing region as
the join of its two children's regions when the root is internal, and for a
single-leaf tree `BVH::flatten` yields the one-element array whose slot has
an empty region, sentinel entry index, and exit index 1. -/
theorem C9_root_aabb_join_and_single_leaf {A : Type} (ops : AABBOps A)
    (la ra : A) (l r : BVHNode A) (si : Nat) :
    ((BVH.flatten ops (BVHNode.node la l ra r)).head?.map FlatNode.aabb)
        = some (ops.join la ra)
    ∧ BVH.flatten ops (BVHNode.leaf si)
        = [FlatNode.mk ops.empty SENTINEL 1 (toU32 si)] := by
  constructor
  · simp [BVH.flatten, BVH.flatten_custom, BVHNode.flatten_custom_node,
      BVH.rootAabb]
  · have h1 : toU32 1 = 1 := toU32_of_lt (by norm_num)
    simp [BVH.flatten, BVH.flatten_custom, BVHNode.flatten_custom_leaf,
      BVHNode.count_nodes, BVH.rootAabb, h1]

/-- Claim C1: for every source tree whose leaf shape indices are valid (and
whose sizes fit `u32`), traversing the flattened tree returns exactly what
the pruning recursive descent returns — precisely the shapes whose bounding
box the ray intersects and all of whose ancestors' bounding regions the ray
intersected, listed in left-subtree-before-right-subtree preorder of the
leaves actually reached. -/
theorem C1_traverse_flatten_matches_recursive_descent {A S : Type}
    (ops : AABBOps A) (t : BVHNode A) (intersects : A → Bool) (aabbOf : S → A)
    (shapes : List S) (hn : t.count_nodes < 2 ^ 32)
    (hv : t.shapesValid shapes.length = true) (hb : shapes.length ≤ 2 ^ 32) :
    FlatBVH.traverse (BVH.flatten ops t) intersects aabbOf shapes
      = LoopState.done
          (specRecTraverse intersects aabbOf shapes t (BVH.rootAabb ops t)) :=
  FlatBVH.traverse_flatten intersects aabbOf shapes ops t hn hv hb

/-- Witness for C1: a three-node tree over regions modelled as naturals with
`max` as join and evenness as the intersection predicate. -/
theorem C1_traverse_flatten_matches_recursive_descent_witness :
    (BVHNode.node 2 (BVHNode.leaf 0) 4 (BVHNode.leaf 1)).count_nodes < 2 ^ 32
    ∧ (BVHNode.node 2 (BVHNode.leaf 0) 4 (BVHNode.leaf 1)).shapesValid
        ([2, 5] : List Nat).length = true
    ∧ ([2, 5] : List Nat).length ≤ 2 ^ 32
    ∧ FlatBVH.traverse
        (BVH.flatten (⟨Nat.max, 0⟩ : AABBOps Nat)
          (BVHNode.node 2 (BVHNode.leaf 0) 4 (BVHNode.leaf 1)))
        (fun a => decide (a % 2 = 0)) (fun s => s) ([2, 5] : List Nat)
      = LoopState.done
          (specRecTraverse (fun a => decide (a % 2 = 0)) (fun s => s)
            ([2, 5] : List Nat)
            (BVHNode.node 2 (BVHNode.leaf 0) 4 (BVHNode.leaf 1))
            (BVH.rootAabb (⟨Nat.max, 0⟩ : AABBOps Nat)
              (BVHNode.node 2 (BVHNode.leaf 0) 4 (BVHNode.leaf 1)))) :=
  ⟨by decide, by decide, by decide,
    C1_traverse_flatten_matches_recursive_descent (⟨Nat.max, 0⟩ : AABBOps Nat)
      (BVHNode.node 2 (BVHNode.leaf 0) 4 (BVHNode.leaf 1))
      (fun a => decide (a % 2 = 0)) (fun s => s) ([2, 5] : List Nat)
      (by decide) (by decide) (by decide)⟩

/-- Counterexample to claim C4 as stated: in the flattened three-node tree,
the root slot (position 0, which is not the terminal slot in layout order)
already has exit index equal to the array length 3, so the terminal node is
not the only position whose exit index may equal the length. -/
theorem C4_counterexample_root_exit_equals_length :
    (BVH.flatten (⟨fun _ _ => (), ()⟩ : AABBOps Unit)
        (BVHNode.node () (BVHNode.leaf 0) () (BVHNode.leaf 1)))[0]?
      = some (FlatNode.mk () 1 3 SENTINEL)
    ∧ (BVH.flatten (⟨fun _ _ => (), ()⟩ : AABBOps Unit)
        (BVHNode.node () (BVHNode.leaf 0) () (BVHNode.leaf 1))).length = 3
    ∧ (0 : Nat) ≠ 3 - 1 := by
  decide

/-- Claim C4 (amended): in `BVH::flatten`'s output every slot's exit index
strictly exceeds its own position and is at most the array length; the
terminal slot in layout order has exit index equal to the array length, but
it is not the only slot that may (every slot whose subtree ends the array,
e.g. the root, shares that exit index). -/
theorem C4_exit_index_bounds_amended {A : Type} (ops : AABBOps A)
    (t : BVHNode A) (hn : t.count_nodes < 2 ^ 32) (j : Nat) (fn : FlatNode A)
    (hfn : (BVH.flatten ops t)[j]? = some fn) :
    j < fn.exit_index
    ∧ fn.exit_index ≤ (BVH.flatten ops t).length
    ∧ (j = (BVH.flatten ops t).length - 1
        → fn.exit_index = (BVH.flatten ops t).length) := by
  have hjlen : j < (BVH.flatten ops t).length := by
    by_contra hc
    rw [List.getElem?_eq_none (by omega)] at hfn
    exact absurd hfn (by simp)
  have hj : j < t.count_nodes := by
    rwa [FlatBVH.flatten_length_eq] at hjlen
  obtain ⟨u, hu⟩ : ∃ u, t.preorder[j]? = some u := by
    rw [List.getElem?_eq_getElem (by rw [BVHNode.preorder_length]; exact hj)]
    exact ⟨_, rfl⟩
  obtain ⟨hj2, hentry, hexit, hshape, hcu, hbound⟩ := flatten_elem_spec ops t hfn hu
  have hlen : (BVH.flatten ops t).length = t.count_nodes :=
    FlatBVH.flatten_length_eq ops t
  have hid : toU32 (0 + j + u.count_nodes) = j + u.count_nodes := by
    rw [show 0 + j + u.count_nodes = j + u.count_nodes by omega]
    exact toU32_of_lt (by omega)
  rw [hexit, hid, hlen]
  refine ⟨by omega, by omega, ?_⟩
  intro hjl
  omega

/-- Witness for the amended C4 at the three-node tree, slot 1 (the left
leaf): its exit index 2 exceeds 1 and is below the length 3. -/
theorem C4_exit_index_bounds_amended_witness :
    (BVHNode.node () (BVHNode.leaf 0) () (BVHNode.leaf 1)).count_nodes < 2 ^ 32
    ∧ (1 < (FlatNode.mk () SENTINEL 2 0).exit_index
        ∧ (FlatNode.mk () SENTINEL 2 0).exit_index
            ≤ (BVH.flatten (⟨fun _ _ => (), ()⟩ : AABBOps Unit)
                (BVHNode.node () (BVHNode.leaf 0) () (BVHNode.leaf 1))).length
        ∧ (1 = (BVH.flatten (⟨fun _ _ => (), ()⟩ : AABBOps Unit)
                 (BVHNode.node () (BVHNode.leaf 0) () (BVHNode.leaf 1))).length - 1
            → (FlatNode.mk () SENTINEL 2 0).exit_index
              = (BVH.flatten (⟨fun _ _ => (), ()⟩ : AABBOps Unit)
                  (BVHNode.node () (BVHNode.leaf 0) () (BVHNode.leaf 1))).length)) :=
  ⟨by decide,
    C4_exit_index_bounds_amended (⟨fun _ _ => (), ()⟩ : AABBOps Unit)
      (BVHNode.node () (BVHNode.leaf 0) () (BVHNode.leaf 1)) (by decide) 1
      (FlatNode.mk () SENTINEL 2 0) (by decide)⟩

/-- Counterexample to claim C5 as stated: for the internal root of the
flattened three-node tree, the slot range `[entryIndex, exitIndex)` is
`[1, 3)` of length 2, while the corresponding source subtree has 3 nodes. -/
theorem C5_counterexample_slot_range :
    (BVH.flatten (⟨fun _ _ => (), ()⟩ : AABBOps Unit)
        (BVHNode.node () (BVHNode.leaf 0) () (BVHNode.leaf 1)))[0]?
      = some (FlatNode.mk () 1 3 SENTINEL)
    ∧ (BVHNode.node () (BVHNode.leaf 0) () (BVHNode.leaf 1)).preorder[0]?
      = some (BVHNode.node () (BVHNode.leaf 0) () (BVHNode.leaf 1))
    ∧ (BVHNode.node () (BVHNode.leaf 0) () (BVHNode.leaf 1)).isLeaf = false
    ∧ (FlatNode.mk () 1 3 SENTINEL).exit_index
        - (FlatNode.mk () 1 3 SENTINEL).entry_index
      ≠ (BVHNode.node () (BVHNode.leaf 0) () (BVHNode.leaf 1)).count_nodes := by
  decide

/-- Claim C5 (amended): for every slot emitted from an internal source node,
the slot range `[entryIndex, exitIndex)` has length exactly one less than
the node count of the corresponding source subtree (it covers the subtree
minus the node's own slot); equivalently `[ownPosition, exitIndex)` has
length exactly the subtree's node count. -/
theorem C5_slot_range_amended {A : Type} (ops : AABBOps A) (t : BVHNode A)
    (hn : t.count_nodes < 2 ^ 32) (j : Nat) (fn : FlatNode A) (u : BVHNode A)
    (hfn : (BVH.flatten ops t)[j]? = some fn) (hu : t.preorder[j]? = some u)
    (hint : u.isLeaf = false) :
    fn.exit_index - fn.entry_index = u.count_nodes - 1
    ∧ fn.exit_index - j = u.count_nodes := by
  obtain ⟨hj, hentry, hexit, hshape, hcu, hbound⟩ := flatten_elem_spec ops t hfn hu
  have h3 := three_le_count_nodes hint
  have hentry' : fn.entry_index = j + 1 := by
    rw [hentry]
    simp only [hint, Bool.false_eq_true, if_false]
    rw [show 1 + (0 + j) = j + 1 by omega]
    exact toU32_of_lt (by omega)
  have hexit' : fn.exit_index = j + u.count_nodes := by
    rw [hexit, show 0 + j + u.count_nodes = j + u.count_nodes by omega]
    exact toU32_of_lt (by omega)
  rw [hentry', hexit']
  exact ⟨by omega, by omega⟩

/-- Witness for the amended C5 at the three-node tree's root slot:
`[1, 3)` has length 2 = 3 − 1, and `[0, 3)` has length 3. -/
theorem C5_slot_range_amended_witness :
    (BVHNode.node () (BVHNode.leaf 0) () (BVHNode.leaf 1)).count_nodes < 2 ^ 32
    ∧ ((FlatNode.mk () 1 3 SENTINEL).exit_index
          - (FlatNode.mk () 1 3 SENTINEL).entry_index
        = (BVHNode.node () (BVHNode.leaf 0) () (BVHNode.leaf 1)).count_nodes - 1
      ∧ (FlatNode.mk () 1 3 SENTINEL).exit_index - 0
        = (BVHNode.node () (BVHNode.leaf 0) () (BVHNode.leaf 1)).count_nodes) :=
  ⟨by decide,
    C5_slot_range_amended (⟨fun _ _ => (), ()⟩ : AABBOps Unit)
      (BVHNode.node () (BVHNode.leaf 0) () (BVHNode.leaf 1)) (by decide) 0
      (FlatNode.mk () 1 3 SENTINEL)
      (BVHNode.node () (BVHNode.leaf 0) () (BVHNode.leaf 1)) (by decide)
      (by decide) (by decide)⟩

/-- Counterexample to claim C6 as stated: with an empty shape sequence but a
non-empty flat array (here the flattening of a single-leaf tree), `traverse`
does not return an empty sequence — the leaf's shape lookup faults. -/
theorem C6_counterexample_empty_shapes_faults :
    FlatBVH.traverse
        (BVH.flatten (⟨fun _ _ => (), ()⟩ : AABBOps Unit) (BVHNode.leaf 0))
        (fun _ => true) (fun _ => ()) ([] : List Unit)
      = LoopState.fault
    ∧ (LoopState.fault : LoopState Unit) ≠ LoopState.done [] := by
  decide

/-- Claim C6 (amended): `traverse` on an empty flat array returns the empty
hit sequence, the very first loop-condition check ending the walk — in
particular also when the shape sequence has no entries.  With a non-empty
array, an empty shape sequence does not guarantee an empty result: a reached
leaf faults on the out-of-bounds shape lookup (see the counterexample). -/
theorem C6_empty_array_amended {A S : Type} (intersects : A → Bool)
    (aabbOf : S → A) (shapes : List S) :
    FlatBVH.traverse ([] : List (FlatNode A)) intersects aabbOf shapes
      = LoopState.done []
    ∧ FlatBVH.traverseStep ([] : List (FlatNode A)) intersects aabbOf shapes
        (.running 0 []) = LoopState.done [] :=
  ⟨rfl, rfl⟩

/-- Claim C7: for every flat array satisfying the index invariants (entry
and exit index of every slot strictly exceed the slot's position, exit
bounded by the array length), the traversal terminates: after at most
`length + 1` loop steps the state is no longer running, a cursor at or past
the array length ends the walk, and the cursor strictly increases between
any two running states of the same call — so each array position is visited
at most once. -/
theorem C7_traverse_terminates_strictly_forward {A S : Type}
    (arr : List (FlatNode A)) (intersects : A → Bool) (aabbOf : S → A)
    (shapes : List S) (hInv : FlatBVH.Inv arr) :
    (FlatBVH.traverse arr intersects aabbOf shapes).isRunning = false
    ∧ (∀ (i : Nat) (hits : List S), arr.length ≤ i →
        FlatBVH.traverseStep arr intersects aabbOf shapes (.running i hits)
          = LoopState.done hits)
    ∧ (∀ (k k' i i' : Nat) (hits hits' : List S), k < k' →
        (FlatBVH.traverseStep arr intersects aabbOf shapes)^[k]
            (.running 0 []) = .running i hits →
        (FlatBVH.traverseStep arr intersects aabbOf shapes)^[k']
            (.running 0 []) = .running i' hits' →
        i < i') := by
  refine ⟨?_, ?_, ?_⟩
  · unfold FlatBVH.traverse
    exact FlatBVH.not_running_of_inv intersects aabbOf shapes hInv arr.length
      0 [] (by omega)
  · intro i hits hle
    simp [FlatBVH.traverseStep, List.getElem?_eq_none hle]
  · intro k k' i i' hits hits' hkk hk hk'
    rw [show k' = (k' - k) + k by omega, Function.iterate_add_apply, hk] at hk'
    exact FlatBVH.iterate_running_lt intersects aabbOf shapes hInv (k' - k)
      i i' hits hits' (by omega) hk'

/-- Witness for C7 on a one-slot array satisfying the index invariants. -/
theorem C7_traverse_terminates_strictly_forward_witness :
    FlatBVH.Inv [FlatNode.mk () SENTINEL 1 0]
    ∧ ((FlatBVH.traverse [FlatNode.mk () SENTINEL 1 0] (fun _ => true)
          (fun _ => ()) [()]).isRunning = false
      ∧ (∀ (i : Nat) (hits : List Unit),
          [FlatNode.mk () SENTINEL 1 0].length ≤ i →
          FlatBVH.traverseStep [FlatNode.mk () SENTINEL 1 0] (fun _ => true)
            (fun _ => ()) [()] (.running i hits) = LoopState.done hits)
      ∧ (∀ (k k' i i' : Nat) (hits hits' : List Unit), k < k' →
          (FlatBVH.traverseStep [FlatNode.mk () SENTINEL 1 0] (fun _ => true)
            (fun _ => ()) [()])^[k] (.running 0 []) = .running i hits →
          (FlatBVH.traverseStep [FlatNode.mk () SENTINEL 1 0] (fun _ => true)
            (fun _ => ()) [()])^[k'] (.running 0 []) = .running i' hits' →
          i < i')) :=
  ⟨by decide,
    C7_traverse_terminates_strictly_forward [FlatNode.mk () SENTINEL 1 0]
      (fun _ => true) (fun _ => ()) [()] (by decide)⟩

/-- Claim C8: if the walk reaches a leaf slot whose shape index is not a
valid position into the shape sequence, the whole call faults — the model of
Rust's immediate, non-recoverable bounds-checked panic — instead of reading
other memory or returning a partial hit list. -/
theorem C8_invalid_shape_index_faults {A S : Type} (arr : List (FlatNode A))
    (intersects : A → Bool) (aabbOf : S → A) (shapes : List S) (k i : Nat)
    (hits : List S) (node : FlatNode A) (hk : k ≤ arr.length)
    (hrun : (FlatBVH.traverseStep arr intersects aabbOf shapes)^[k]
        (.running 0 []) = .running i hits)
    (hnode : arr[i]? = some node) (hleaf : node.entry_index = SENTINEL)
    (hbad : shapes.length ≤ node.shape_index) :
    FlatBVH.traverse arr intersects aabbOf shapes = LoopState.fault :=
  FlatBVH.traverse_fault_of_invalid_leaf arr intersects aabbOf shapes k i hits
    node hk hrun hnode hleaf hbad

/-- Witness for C8: a one-slot leaf array whose shape index 5 is out of range
of the empty shape sequence; the walk sits there at step 0 and the call
faults. -/
theorem C8_invalid_shape_index_faults_witness :
    0 ≤ ([FlatNode.mk () SENTINEL 1 5] : List (FlatNode Unit)).length
    ∧ (FlatBVH.traverseStep [FlatNode.mk () SENTINEL 1 5] (fun _ => true)
        (fun _ => ()) ([] : List Unit))^[0] (.running 0 [])
      = (LoopState.running 0 [] : LoopState Unit)
    ∧ ([FlatNode.mk () SENTINEL 1 5] : List (FlatNode Unit))[0]?
      = some (FlatNode.mk () SENTINEL 1 5)
    ∧ (FlatNode.mk () SENTINEL 1 5).entry_index = SENTINEL
    ∧ ([] : List Unit).length ≤ (FlatNode.mk () SENTINEL 1 5).shape_index
    ∧ FlatBVH.traverse [FlatNode.mk () SENTINEL 1 5] (fun _ => true)
        (fun _ => ()) ([] : List Unit) = LoopState.fault :=
  ⟨by decide, by decide, by decide, by decide, by decide,
    C8_invalid_shape_index_faults [FlatNode.mk () SENTINEL 1 5]
      (fun _ => true) (fun _ => ()) ([] : List Unit) 0 0 []
      (FlatNode.mk () SENTINEL 1 5) (by decide) (by decide) (by decide)
      (by decide) (by decide)⟩
